import Mathlib

/-!
Shallow embedding of src/main.py (Hanson04/RummyPlayer, revision 1.1), a
two-player rummy decision service.  Python strings are Lean `String`s, Python
lists are Lean `List`s, and the module-level mutable globals of main.py are
collected into an explicit `RummyState` record that every endpoint threads
through.  Fallible Python list indexing is modelled with `Except`.
-/

deriving instance DecidableEq for Except

/-- Error outcomes of the embedded handlers.  The source only ever raises a
list IndexError; `invalidState` represents the explicit error policy that the
specification (§7) discusses, so that both outcomes are expressible. -/
inductive PyErr where
  | indexError
  | invalidState
  deriving DecidableEq

/-- One wins/losses counter pair (a value of `draw_stats` / `discard_stats`). -/
structure WL where
  wins : Nat
  losses : Nat
  deriving DecidableEq

/-- The `draw_stats` dictionary of main.py line 36: its two fixed keys are
"draw discard" and "draw stock". -/
structure DrawStats where
  drawDiscard : WL
  drawStock : WL
  deriving DecidableEq

/-- The module-level mutable globals of main.py (lines 24-42). -/
structure RummyState where
  hand : List String
  discard : List String
  move_history : List (String × String)
  draw_stats : DrawStats
  discard_stats : List (String × WL)
  deriving DecidableEq

/-- Char-list test used by `hasSub`: `pat` begins `l`. -/
def isPre : List Char → List Char → Bool
  | [], _ => true
  | _ :: _, [] => false
  | a :: pat, b :: l => a == b && isPre pat l

/-- Python `pat in t` on strings: `pat` occurs contiguously inside `l`. -/
def hasSub (pat : List Char) : List Char → Bool
  | [] => pat.isEmpty
  | b :: l => isPre pat (b :: l) || hasSub pat l

/-- Python `s.split(sep)` for a one-character separator: keeps empty pieces. -/
def splitChar (sep : Char) : List Char → List (List Char)
  | [] => [[]]
  | a :: as =>
    match splitChar sep as with
    | [] => [[]]
    | x :: xs => if a == sep then [] :: x :: xs else (a :: x) :: xs

/-- Python `line.split(" ")[-1]`: the trailing space-delimited token of a line. -/
def lastToken (line : String) : String :=
  String.mk ((splitChar ' ' line.data).getLastD [])

/-- Python `text.splitlines()`; the event text only uses plain newlines. -/
def splitLines (t : String) : List String :=
  let parts := (splitChar '\n' t.data).map String.mk
  if parts.getLastD "" == "" then parts.dropLast else parts

/-- Python string comparison: ascending lexical order on code points. -/
def lexLe : List Char → List Char → Bool
  | [], _ => true
  | _ :: _, [] => false
  | a :: as, b :: bs => if a == b then lexLe as bs else decide (a < b)

/-- Stable insertion used by `sortHand`. -/
def insertSorted (x : String) : List String → List String
  | [] => [x]
  | y :: ys => if lexLe x.data y.data then x :: y :: ys else y :: insertSorted x ys

/-- Python `list.sort()` on a list of card tokens. -/
def sortHand (l : List String) : List String := l.foldr insertSorted []

/-- One character of Python `str.lower()`; the event text of this game is ASCII. -/
def lowerChar (c : Char) : Char :=
  if 'A' ≤ c && c ≤ 'Z' then Char.ofNat (c.toNat + 32) else c

/-- Python `s.lower()`. -/
def lowerStr (s : String) : String := String.mk (s.data.map lowerChar)

/-- Python `s.strip()`; the play strings built below only contain plain spaces. -/
def stripChars (l : List Char) : List Char :=
  ((l.dropWhile (· == ' ')).reverse.dropWhile (· == ' ')).reverse

/-- `card[0]`: the rank character of a card token; card tokens are non-empty. -/
def rank (c : String) : Char := c.data.headD ' '

def USER_NAME : String := "EvanH"

/-- One line of `process_events` (main.py lines 97-111): the three substring
tests fire independently, in order, on the same line. -/
def processLine (st : RummyState) (line : String) : RummyState :=
  let st1 :=
    if hasSub (USER_NAME ++ " draws").data line.data ||
        hasSub (USER_NAME ++ " takes").data line.data then
      { st with hand := sortHand (st.hand ++ [lastToken line]) }
    else st
  let st2 :=
    if hasSub "discards".data line.data then
      { st1 with discard := lastToken line :: st1.discard }
    else st1
  if hasSub "takes".data line.data then { st2 with discard := st2.discard.tail } else st2

/-- `process_events` (main.py lines 94-111); a pop of the empty discard pile is
a no-op, which `List.tail` matches. -/
def processEvents (t : String) (st : RummyState) : RummyState :=
  (splitLines t).foldl processLine st

/-- `start_hand` (main.py lines 83-91): the new hand is split and sorted; the
body declares `discard` global but never assigns it. -/
def start_hand (hand_info : String) (st : RummyState) : RummyState :=
  { st with hand := sortHand ((splitChar ' ' hand_info.data).map String.mk) }

/-- `start_game` (main.py lines 67-75): sorts the new hand and clears the pile. -/
def start_game (hand_info : String) (st : RummyState) : RummyState :=
  { st with hand := sortHand ((splitChar ' ' hand_info.data).map String.mk), discard := [] }

/-- An unreduced integer fraction.  The 1e-5 smoothed win ratios of main.py are
rational values; comparing them exactly by cross-multiplication agrees with the
float comparisons of the source for all reachable counter sizes. -/
structure Frac where
  num : Int
  den : Int
  deriving DecidableEq

/-- Strict fraction comparison, for positive denominators. -/
def fracLt (x y : Frac) : Bool := decide (x.num * y.den < y.num * x.den)

/-- Non-strict fraction comparison, for positive denominators. -/
def fracLe (x y : Frac) : Bool := decide (x.num * y.den ≤ y.num * x.den)

/-- `wins / (wins + losses + 1e-5)` scaled by 100000: the exact value of the
smoothed win ratio as an integer fraction. -/
def ratioFrac (w : WL) : Frac :=
  { num := 100000 * (w.wins : Int),
    den := 100000 * (w.wins : Int) + 100000 * (w.losses : Int) + 1 }

/-- The rational value of a fraction. -/
def Frac.toQ (f : Frac) : ℚ := (f.num : ℚ) / (f.den : ℚ)

/-- The smoothed win ratio `wins / (wins + losses + 1e-5)` as a rational,
with the literal 1e-5 read exactly as 1/100000. -/
def ratioOf (w : WL) : ℚ := (w.wins : ℚ) / ((w.wins : ℚ) + (w.losses : ℚ) + 1 / 100000)

def bumpWL (w : WL) (win : Bool) : WL :=
  if win then { w with wins := w.wins + 1 } else { w with losses := w.losses + 1 }

/-- `draw_stats[action]` increment; the draw moves recorded by main.py carry
exactly the actions "draw discard" and "draw stock". -/
def bumpDraw (d : DrawStats) (action : String) (win : Bool) : DrawStats :=
  if action = "draw discard" then { d with drawDiscard := bumpWL d.drawDiscard win }
  else { d with drawStock := bumpWL d.drawStock win }

/-- `discard_stats.get(card, {"wins": 0, "losses": 0})` on the insertion-ordered
dictionary, modelled as an association list. -/
def statsGet (l : List (String × WL)) (c : String) : WL :=
  match l.find? (fun p => p.1 == c) with
  | some p => p.2
  | none => { wins := 0, losses := 0 }

/-- Dictionary insert-if-absent followed by the counter increment
(main.py lines 150-156). -/
def bumpKey (l : List (String × WL)) (k : String) (win : Bool) : List (String × WL) :=
  let l1 := if l.any (fun p => p.1 == k) then l else l ++ [(k, { wins := 0, losses := 0 })]
  l1.map (fun p => if p.1 == k then (p.1, bumpWL p.2 win) else p)

/-- The outcome branch of `update_2p_game` (main.py lines 138-158): walk the
move history, bump the matching counters, then clear the history. -/
def applyOutcome (win : Bool) (st : RummyState) : RummyState :=
  let st2 := st.move_history.foldl
    (fun s mv =>
      if mv.1 = "draw" then { s with draw_stats := bumpDraw s.draw_stats mv.2 win }
      else if mv.1 = "discard" then { s with discard_stats := bumpKey s.discard_stats mv.2 win }
      else s) st
  { st2 with move_history := [] }

/-- `update_2p_game` (main.py lines 120-160). -/
def update_2p_game (e : String) (st : RummyState) : RummyState :=
  let st1 := processEvents e st
  if hasSub "win".data (lowerStr e).data then applyOutcome true st1
  else if hasSub "loss".data (lowerStr e).data || hasSub "lose".data (lowerStr e).data then
    applyOutcome false st1
  else st1

/-- The heuristic of main.py line 197:
`any(discard[0][0] in card for card in hand)`, a substring test of the top
card's first character against every whole hand token. -/
def drawHeuristic (hand : List String) (top : String) : String :=
  if hand.any (fun card => hasSub [top.data.headD ' '] card.data) then "draw discard"
  else "draw stock"

/-- The exploitation branch of `draw` (main.py lines 188-203); the branch is
only reached with a non-empty discard pile. -/
def drawExploit (st : RummyState) : String :=
  let heuristic := drawHeuristic st.hand (st.discard.headD "")
  if heuristic = "draw discard" then
    if fracLe (ratioFrac st.draw_stats.drawStock) (ratioFrac st.draw_stats.drawDiscard) then
      "draw discard"
    else "draw stock"
  else
    if fracLe (ratioFrac st.draw_stats.drawDiscard) (ratioFrac st.draw_stats.drawStock) then
      "draw stock"
    else "draw discard"

/-- The action other than `a` among the two draw actions. -/
def otherAction (a : String) : String :=
  if a = "draw discard" then "draw stock" else "draw discard"

/-- The learned win ratio of a draw action. -/
def ratioFor (d : DrawStats) (a : String) : ℚ :=
  if a = "draw discard" then ratioOf d.drawDiscard else ratioOf d.drawStock

/-- Stated from the spec (§4.3 step 3) for comparison with `drawExploit`: the
heuristic's suggestion unless the other action has a strictly higher ratio. -/
def specDrawChoice (st : RummyState) : String :=
  let h := drawHeuristic st.hand (st.discard.headD "")
  if ratioFor st.draw_stats h < ratioFor st.draw_stats (otherAction h) then otherAction h
  else h

/-- `of_a_kind_count[i] += 1` with Python's bounds behavior: an IndexError
when `i` is not a valid index. -/
def bump (l : List Nat) (i : Nat) : Except PyErr (List Nat) :=
  if i < l.length then .ok (l.set i (l.getD i 0 + 1)) else .error .indexError

/-- The counting loop of main.py lines 228-235 over `hand[1:]`. -/
def kindLoop : List String → Char → Nat → List Nat → Except PyErr (Nat × List Nat)
  | [], _, count, acc => .ok (count, acc)
  | c :: cs, lastV, count, acc =>
    if rank c = lastV then kindLoop cs (rank c) (count + 1) acc
    else
      match bump acc count with
      | .error e => .error e
      | .ok acc2 => kindLoop cs (rank c) 0 acc2

/-- main.py lines 225-237: the of-a-kind counts, starting from `hand[0]`
(an IndexError on an empty hand) and closing with `if count != 0`. -/
def of_a_kind_count (hand : List String) : Except PyErr (List Nat) :=
  match hand with
  | [] => .error .indexError
  | h0 :: rest =>
    match kindLoop rest (rank h0) 0 [0, 0, 0, 0] with
    | .error e => .error e
    | .ok (count, acc) => if count ≠ 0 then bump acc count else .ok acc

/-- The learned-stats scan of main.py lines 247-257: keep the first card whose
ratio strictly beats the running best (`ratio > best_ratio`). -/
def scanBest (stats : List (String × WL)) : List String → Frac → Option String → Option String
  | [], _, best => best
  | c :: cs, bestR, best =>
    if fracLt bestR (ratioFrac (statsGet stats c)) then
      scanBest stats cs (ratioFrac (statsGet stats c)) (some c)
    else scanBest stats cs bestR best

/-- `best_ratio = -1.0` (main.py line 247). -/
def negOneFrac : Frac := { num := -1, den := 1 }

/-- Candidate choice on the pairs path (main.py lines 247-261); the `hand[-1]`
fallback is reachable only for an empty hand, which the of-a-kind analysis has
already turned into an IndexError. -/
def candidatePairs (hand : List String) (stats : List (String × WL)) : String :=
  match scanBest stats hand negOneFrac none with
  | some c => c
  | none => hand.getLastD ""

/-- The backwards scan of main.py lines 271-276; pattern `i + 1` plays the
Python loop index `i ≥ 1`, and the `i == 0` arm always pops. -/
def heurPick (hand : List String) : Nat → String × List String
  | 0 => (hand.headD "", hand.eraseIdx 0)
  | i + 1 =>
    if rank (hand.getD (i + 1) "") ≠ rank (hand.getD i "") then
      (hand.getD (i + 1) "", hand.eraseIdx (i + 1))
    else heurPick hand i

def heurDiscard (hand : List String) : String × List String :=
  heurPick hand (hand.length - 1)

/-- The meld while-loop of main.py lines 282-287: pops the hand until it is
empty, opening a new "meld " group whenever the popped token differs from the
previous whole token; the second component is the hand the loop leaves behind. -/
def meldLoop : List String → String → String × List String
  | [], _ => ("", [])
  | c :: cs, lastC =>
    ((if c ≠ lastC then "meld " else "") ++ c ++ " " ++ (meldLoop cs c).1, (meldLoop cs c).2)

/-- `lay_down` after event processing (main.py lines 223-292). -/
def lay_down_core (st : RummyState) : Except PyErr (String × RummyState) :=
  match of_a_kind_count st.hand with
  | .error e => .error e
  | .ok counts =>
    let pr :=
      if counts.getD 0 0 + counts.getD 1 0 > 1 then
        (candidatePairs st.hand st.discard_stats,
          st.hand.erase (candidatePairs st.hand st.discard_stats))
      else heurDiscard st.hand
    let m := meldLoop pr.2 ""
    .ok (String.mk (stripChars m.1.data) ++ " discard " ++ pr.1,
      { st with hand := m.2, move_history := st.move_history ++ [("discard", pr.1)] })

/-- The `/lay-down/` endpoint (main.py lines 213-292). -/
def lay_down (e : String) (st : RummyState) : Except PyErr (String × RummyState) :=
  lay_down_core (processEvents e st)

/-- Modelled from the spec: src/main.py (revision 1.1) contains no persistence
code for its learning statistics; §6 of the specification describes the durable
layout of LearningStats as a record of key rows with wins and losses counters.
`persistStats` writes the in-memory mapping out as such rows. -/
def persistStats (m : List (String × WL)) : List (String × Nat × Nat) :=
  m.map (fun p => (p.1, p.2.wins, p.2.losses))

/-- Modelled from the spec: reload of the persisted rows (§6). -/
def loadStats (r : List (String × Nat × Nat)) : List (String × WL) :=
  r.map (fun p => (p.1, { wins := p.2.1, losses := p.2.2 }))

/-- Modelled from the spec: the Learning Store together with its durable
storage (§4.4); absent from src/, whose statistics live in process memory. -/
structure LearnStore where
  stats : List (String × WL)
  storage : List (String × Nat × Nat)
  deriving DecidableEq

/-- Modelled from the spec: `record_outcome` (§4.4) bumps the counter keyed by
each recorded action, clears the move log, and persists after the mutation. -/
def record_outcome (win : Bool) (history : List (String × String)) (box : LearnStore) :
    List (String × String) × LearnStore :=
  let stats1 := history.foldl (fun acc mv => bumpKey acc mv.2 win) box.stats
  ([], { stats := stats1, storage := persistStats stats1 })

/-- Length of the leading run of cards of rank `v`. -/
def leadRun (v : Char) : List String → Nat
  | [] => 0
  | c :: cs => if rank c = v then leadRun v cs + 1 else 0

def zeroWL : WL := { wins := 0, losses := 0 }

def zeroDraw : DrawStats := { drawDiscard := zeroWL, drawStock := zeroWL }

/-- A state with a leftover discard pile, for the hand-start notification. -/
def stHandStart : RummyState :=
  { hand := ["3C"], discard := ["5H"], move_history := [], draw_stats := zeroDraw,
    discard_stats := [] }

/-- The spec's Scenario 3 hand, rank-sorted. -/
def stScenario3 : RummyState :=
  { hand := ["2D", "2H", "2S", "7C"], discard := [], move_history := [],
    draw_stats := zeroDraw, discard_stats := [] }

/-- A hand with one pair and two singles, with learned stats favoring the
single "5C". -/
def stPairsPath : RummyState :=
  { hand := ["2D", "2H", "5C", "7S"], discard := [], move_history := [],
    draw_stats := zeroDraw, discard_stats := [("5C", { wins := 1, losses := 0 })] }

def stEmptyHand : RummyState :=
  { hand := [], discard := [], move_history := [], draw_stats := zeroDraw,
    discard_stats := [] }

/-- The spec's Scenario 2 state. -/
def stScenario2 : RummyState :=
  { hand := ["4H", "4S", "9C"], discard := ["4D"], move_history := [],
    draw_stats := zeroDraw, discard_stats := [] }

/-- A state holding one recorded draw move, for the outcome update. -/
def stWinUpdate : RummyState :=
  { hand := [], discard := [], move_history := [("draw", "draw discard")],
    draw_stats := zeroDraw, discard_stats := [] }

/-- A hand of three singles with empty learned stats. -/
def stAllSingles : RummyState :=
  { hand := ["2D", "5C", "7S"], discard := [], move_history := [],
    draw_stats := zeroDraw, discard_stats := [] }

/-! ## Helper lemmas -/

lemma ratioOf_nonneg (w : WL) : 0 ≤ ratioOf w := by
  unfold ratioOf
  positivity

lemma ratioFrac_den_pos (w : WL) : 0 < (ratioFrac w).den := by
  unfold ratioFrac
  positivity

lemma ratioFrac_toQ (w : WL) : (ratioFrac w).toQ = ratioOf w := by
  unfold ratioFrac Frac.toQ ratioOf
  have h1 : ((w.wins : ℚ) + (w.losses : ℚ) + 1 / 100000) ≠ 0 := by positivity
  push_cast
  rw [div_eq_div_iff (by positivity) h1]
  ring

lemma fracLt_iff (f g : Frac) (hf : 0 < f.den) (hg : 0 < g.den) :
    fracLt f g = true ↔ f.toQ < g.toQ := by
  unfold fracLt Frac.toQ
  rw [decide_eq_true_eq,
    div_lt_div_iff (by exact_mod_cast hf) (by exact_mod_cast hg)]
  constructor
  · intro h
    exact_mod_cast h
  · intro h
    exact_mod_cast h

lemma fracLe_iff (f g : Frac) (hf : 0 < f.den) (hg : 0 < g.den) :
    fracLe f g = true ↔ f.toQ ≤ g.toQ := by
  unfold fracLe Frac.toQ
  rw [decide_eq_true_eq,
    div_le_div_iff (by exact_mod_cast hf) (by exact_mod_cast hg)]
  constructor
  · intro h
    exact_mod_cast h
  · intro h
    exact_mod_cast h

lemma hasSub_singleton (ch : Char) (l : List Char) : hasSub [ch] l = true ↔ ch ∈ l := by
  induction l with
  | nil => simp [hasSub]
  | cons b bs ih => simp [hasSub, isPre, ih]

/-! ## Claim theorems (C1, C2, C3) -/

/-- Claim C1 (code bug): the hand-start handler sorts the new hand but never
clears the discard pile; with prior pile ["5H"], after `start_hand "9D 2C"`
the pile still holds ["5H"], while the claim requires it to be emptied. -/
theorem start_hand_keeps_old_discard :
    (start_hand "9D 2C" stHandStart).hand = ["2C", "9D"] ∧
      (start_hand "9D 2C" stHandStart).discard = ["5H"] := by decide

/-- Claim C2 (code bug): on the spec's Scenario 3 hand the meld loop compares
whole card tokens, so each card of the ["2D","2H","2S"] triple opens its own
meld group: the response is "meld 2D meld 2H meld 2S discard 7C", not the
claimed "meld 2D 2H 2S discard 7C". -/
theorem lay_down_scenario3_meld_per_card :
    lay_down "" stScenario3 =
      .ok ("meld 2D meld 2H meld 2S discard 7C",
        { stScenario3 with hand := [], move_history := [("discard", "7C")] }) := by decide

/-- Claim C3 (code bug): the final `if count != 0` guard skips a trailing
rank-group of size one, so for the two-rank hand ["2H","7C"] the profile is
[1,0,0,0]: its sum 1 is not the number 2 of distinct ranks present. -/
theorem of_a_kind_count_drops_trailing_single :
    of_a_kind_count ["2H", "7C"] = .ok [1, 0, 0, 0] ∧
      ((["2H", "7C"] : List String).map rank).dedup.length = 2 ∧
      ([1, 0, 0, 0] : List Nat).sum = 1 := by decide

/-! ## Claim theorems (C6) -/

/-- Claim C6 counterexample: with hand ["3H"] and discard top "H7" the
substring test fires on the suit character of "3H", so the heuristic says
"draw discard" although no hand card has the top's rank 'H'. -/
theorem drawHeuristic_substring_not_rank :
    drawHeuristic ["3H"] "H7" = "draw discard" ∧
      ∀ card ∈ (["3H"] : List String), rank card ≠ rank "H7" := by decide

/-- Claim C6 amended: the heuristic suggests "draw discard" exactly when the
first character of the discard top occurs anywhere inside some hand card token
(rank or suit position), not only on rank equality. -/
theorem drawHeuristic_iff_char_mem (hand discard : List String) (hne : discard ≠ []) :
    drawHeuristic hand (discard.headD "") = "draw discard" ↔
      ∃ card ∈ hand, (discard.headD "").data.headD ' ' ∈ card.data := by
  constructor
  · intro hdd
    unfold drawHeuristic at hdd
    split at hdd
    · next h =>
      rcases List.any_eq_true.mp h with ⟨card, hmem, hcard⟩
      exact ⟨card, hmem, (hasSub_singleton _ _).mp hcard⟩
    · exact absurd hdd (by decide)
  · rintro ⟨card, hmem, hch⟩
    have h : hand.any (fun card => hasSub [(discard.headD "").data.headD ' '] card.data) = true :=
      List.any_eq_true.mpr ⟨card, hmem, (hasSub_singleton _ _).mpr hch⟩
    unfold drawHeuristic
    rw [if_pos h]

/-- Witness for the amended C6 theorem at the spec's Scenario 2 inputs. -/
theorem drawHeuristic_iff_char_mem_witness :
    (["4D"] : List String) ≠ [] ∧
      (drawHeuristic ["4H", "4S", "9C"] ((["4D"] : List String).headD "") = "draw discard" ↔
        ∃ card ∈ (["4H", "4S", "9C"] : List String),
          ((["4D"] : List String).headD "").data.headD ' ' ∈ card.data) :=
  ⟨by decide, drawHeuristic_iff_char_mem ["4H", "4S", "9C"] ["4D"] (by decide)⟩

/-! ## Claim theorems (C9) -/

/-- Claim C9 counterexample: a lay-down with an empty hand reaches `hand[0]`
and fails with the index error — it indexes past the end instead of applying
an explicit InvalidState policy. -/
theorem lay_down_empty_hand_index_error :
    lay_down "" stEmptyHand = .error .indexError := by decide

/-- Claim C9 amended: whenever the hand is empty after event processing, the
lay-down handler fails by indexing past the end of the empty hand. -/
theorem lay_down_empty_hand_general (e : String) (st : RummyState)
    (h : (processEvents e st).hand = []) :
    lay_down e st = .error .indexError := by
  unfold lay_down lay_down_core
  rw [h]
  rfl

/-- Witness for the amended C9 theorem. -/
theorem lay_down_empty_hand_general_witness :
    (processEvents "x" stEmptyHand).hand = [] ∧
      lay_down "x" stEmptyHand = .error .indexError :=
  ⟨by decide, lay_down_empty_hand_general "x" stEmptyHand (by decide)⟩

/-! ## Claim theorems (C5, spec-modelled persistence) -/

/-- Claim C5 (spec-modelled): reloading persisted LearningStats rows restores
the identical mapping, and the modelled `record_outcome` leaves the durable
storage equal to the persisted image of the mapping after every mutation. -/
theorem learning_stats_roundtrip_and_persist :
    (∀ m : List (String × WL), loadStats (persistStats m) = m) ∧
      (∀ (win : Bool) (history : List (String × String)) (box : LearnStore),
        (record_outcome win history box).2.storage =
          persistStats (record_outcome win history box).2.stats) := by
  constructor
  · intro m
    induction m with
    | nil => rfl
    | cons p ps ih => simp_all [persistStats, loadStats]
  · intro win history box
    rfl

/-! ## Claim theorems (C7) -/

lemma drawHeuristic_cases (hand : List String) (top : String) :
    drawHeuristic hand top = "draw discard" ∨ drawHeuristic hand top = "draw stock" := by
  unfold drawHeuristic
  split
  · exact Or.inl rfl
  · exact Or.inr rfl

lemma fracLe_ratio_iff (x y : WL) :
    fracLe (ratioFrac x) (ratioFrac y) = true ↔ ratioOf x ≤ ratioOf y := by
  rw [fracLe_iff _ _ (ratioFrac_den_pos x) (ratioFrac_den_pos y), ratioFrac_toQ, ratioFrac_toQ]

lemma otherAction_dd : otherAction "draw discard" = "draw stock" := by decide

lemma otherAction_ds : otherAction "draw stock" = "draw discard" := by decide

lemma ratioFor_dd (d : DrawStats) : ratioFor d "draw discard" = ratioOf d.drawDiscard := by
  simp [ratioFor]

lemma ratioFor_ds (d : DrawStats) : ratioFor d "draw stock" = ratioOf d.drawStock := by
  simp [ratioFor]

/-- Claim C7: in the exploitation branch the decision is the heuristic's
suggestion unless the other action has a strictly higher learned win ratio;
on ties the heuristic's suggestion is returned. -/
theorem drawExploit_matches_spec (st : RummyState) (hne : st.discard ≠ []) :
    drawExploit st = specDrawChoice st := by
  rcases drawHeuristic_cases st.hand (st.discard.headD "") with h | h
  · simp only [drawExploit, specDrawChoice]
    rw [h, otherAction_dd, ratioFor_dd, ratioFor_ds, if_pos rfl]
    rcases le_or_lt (ratioOf st.draw_stats.drawStock) (ratioOf st.draw_stats.drawDiscard)
      with hc | hc
    · rw [if_pos ((fracLe_ratio_iff _ _).mpr hc), if_neg (not_lt.mpr hc)]
    · rw [if_neg (fun hh => absurd ((fracLe_ratio_iff _ _).mp hh) (not_le.mpr hc)), if_pos hc]
  · simp only [drawExploit, specDrawChoice]
    rw [h, otherAction_ds, ratioFor_dd, ratioFor_ds,
      if_neg (by decide : ¬("draw stock" : String) = "draw discard")]
    rcases le_or_lt (ratioOf st.draw_stats.drawDiscard) (ratioOf st.draw_stats.drawStock)
      with hc | hc
    · rw [if_pos ((fracLe_ratio_iff _ _).mpr hc), if_neg (not_lt.mpr hc)]
    · rw [if_neg (fun hh => absurd ((fracLe_ratio_iff _ _).mp hh) (not_le.mpr hc)), if_pos hc]

/-- Witness for C7 at the spec's Scenario 2 state. -/
theorem drawExploit_matches_spec_witness :
    stScenario2.discard ≠ [] ∧ drawExploit stScenario2 = specDrawChoice stScenario2 :=
  ⟨by decide, drawExploit_matches_spec stScenario2 (by decide)⟩

/-! ## Claim theorems (C8) -/

lemma processLine_move_history (st : RummyState) (line : String) :
    (processLine st line).move_history = st.move_history := by
  dsimp only [processLine]
  split <;> split <;> split <;> rfl

lemma processLine_draw_stats (st : RummyState) (line : String) :
    (processLine st line).draw_stats = st.draw_stats := by
  dsimp only [processLine]
  split <;> split <;> split <;> rfl

lemma foldl_processLine_move_history (ls : List String) :
    ∀ st : RummyState, (ls.foldl processLine st).move_history = st.move_history := by
  induction ls with
  | nil => intro st; rfl
  | cons l ls ih =>
    intro st
    rw [List.foldl_cons, ih (processLine st l), processLine_move_history]

lemma foldl_processLine_draw_stats (ls : List String) :
    ∀ st : RummyState, (ls.foldl processLine st).draw_stats = st.draw_stats := by
  induction ls with
  | nil => intro st; rfl
  | cons l ls ih =>
    intro st
    rw [List.foldl_cons, ih (processLine st l), processLine_draw_stats]

lemma processEvents_move_history (t : String) (st : RummyState) :
    (processEvents t st).move_history = st.move_history :=
  foldl_processLine_move_history (splitLines t) st

lemma processEvents_draw_stats (t : String) (st : RummyState) :
    (processEvents t st).draw_stats = st.draw_stats :=
  foldl_processLine_draw_stats (splitLines t) st

/-- Claim C8: an update whose text contains "win" (case-insensitively), with
move history exactly [("draw","draw discard")], bumps that action's wins
counter by one and clears the move history. -/
theorem update_win_bumps_draw_discard (e : String) (st : RummyState)
    (hwin : hasSub "win".data (lowerStr e).data = true)
    (hmh : st.move_history = [("draw", "draw discard")]) :
    (update_2p_game e st).draw_stats.drawDiscard.wins =
        st.draw_stats.drawDiscard.wins + 1 ∧
      (update_2p_game e st).move_history = [] := by
  unfold update_2p_game
  rw [if_pos hwin]
  unfold applyOutcome
  rw [processEvents_move_history e st, hmh]
  simp [bumpDraw, bumpWL, processEvents_draw_stats]

/-- Witness for C8 at the event text "EvanH wins". -/
theorem update_win_bumps_draw_discard_witness :
    hasSub "win".data (lowerStr "EvanH wins").data = true ∧
      stWinUpdate.move_history = [("draw", "draw discard")] ∧
      ((update_2p_game "EvanH wins" stWinUpdate).draw_stats.drawDiscard.wins =
          stWinUpdate.draw_stats.drawDiscard.wins + 1 ∧
        (update_2p_game "EvanH wins" stWinUpdate).move_history = []) :=
  ⟨by decide, by decide,
    update_win_bumps_draw_discard "EvanH wins" stWinUpdate (by decide) (by decide)⟩

/-! ## Claim theorems (C4) -/

/-- Postcondition of the learned-stats scan: either nothing beats the running
best and the accumulator is returned, or the result is the first card
attaining the maximal ratio among the cards that beat the running best. -/
lemma scanBest_go (stats : List (String × WL)) :
    ∀ (l : List String) (bR : Frac) (cur : Option String), 0 < bR.den →
      (scanBest stats l bR cur = cur ∧
          ∀ d ∈ l, ratioOf (statsGet stats d) ≤ bR.toQ) ∨
      (∃ pre c post, l = pre ++ c :: post ∧ scanBest stats l bR cur = some c ∧
        bR.toQ < ratioOf (statsGet stats c) ∧
        (∀ d ∈ pre, ratioOf (statsGet stats d) < ratioOf (statsGet stats c)) ∧
        (∀ d ∈ post, ratioOf (statsGet stats d) ≤ ratioOf (statsGet stats c))) := by
  intro l
  induction l with
  | nil =>
    intro bR cur hb
    left
    exact ⟨rfl, by simp⟩
  | cons a as ih =>
    intro bR cur hb
    by_cases h : fracLt bR (ratioFrac (statsGet stats a)) = true
    · have hlt : bR.toQ < ratioOf (statsGet stats a) := by
        rw [← ratioFrac_toQ]
        exact (fracLt_iff _ _ hb (ratioFrac_den_pos _)).mp h
      rcases ih (ratioFrac (statsGet stats a)) (some a) (ratioFrac_den_pos _) with
        ⟨hres, hall⟩ | ⟨pre, c, post, hsplit, hres, hgt, hpre, hpost⟩
      · right
        refine ⟨[], a, as, rfl, ?_, hlt, by simp, ?_⟩
        · rw [scanBest, if_pos h]
          exact hres
        · intro d hd
          have := hall d hd
          rwa [ratioFrac_toQ] at this
      · right
        rw [ratioFrac_toQ] at hgt
        refine ⟨a :: pre, c, post, by rw [hsplit]; rfl, ?_, lt_trans hlt hgt, ?_, hpost⟩
        · rw [scanBest, if_pos h]
          exact hres
        · intro d hd
          rcases List.mem_cons.mp hd with rfl | hd
          · exact hgt
          · exact hpre d hd
    · have hle : ratioOf (statsGet stats a) ≤ bR.toQ := by
        by_contra hcon
        exact h ((fracLt_iff _ _ hb (ratioFrac_den_pos _)).mpr
          (by rw [ratioFrac_toQ]; exact not_le.mp hcon))
      rcases ih bR cur hb with
        ⟨hres, hall⟩ | ⟨pre, c, post, hsplit, hres, hgt, hpre, hpost⟩
      · left
        refine ⟨?_, ?_⟩
        · rw [scanBest, if_neg h]
          exact hres
        · intro d hd
          rcases List.mem_cons.mp hd with rfl | hd
          · exact hle
          · exact hall d hd
      · right
        refine ⟨a :: pre, c, post, by rw [hsplit]; rfl, ?_, hgt, ?_, hpost⟩
        · rw [scanBest, if_neg h]
          exact hres
        · intro d hd
          rcases List.mem_cons.mp hd with rfl | hd
          · exact lt_of_le_of_lt hle hgt
          · exact hpre d hd

/-- On a non-empty hand the scan returns the first card of maximal ratio. -/
lemma candidatePairs_spec (hand : List String) (stats : List (String × WL))
    (hne : hand ≠ []) :
    ∃ pre c post, hand = pre ++ c :: post ∧ candidatePairs hand stats = c ∧
      (∀ d ∈ pre, ratioOf (statsGet stats d) < ratioOf (statsGet stats c)) ∧
      (∀ d ∈ hand, ratioOf (statsGet stats d) ≤ ratioOf (statsGet stats c)) := by
  rcases scanBest_go stats hand negOneFrac none (by norm_num [negOneFrac]) with
    ⟨hres, hall⟩ | ⟨pre, c, post, hsplit, hres, hgt, hpre, hpost⟩
  · rcases hand with _ | ⟨a, as⟩
    · exact absurd rfl hne
    · have h0 := hall a (by simp)
      have h1 := ratioOf_nonneg (statsGet stats a)
      have h2 : negOneFrac.toQ = -1 := by norm_num [negOneFrac, Frac.toQ]
      rw [h2] at h0
      linarith
  · refine ⟨pre, c, post, hsplit, ?_, hpre, ?_⟩
    · rw [candidatePairs, hres]
    · intro d hd
      rw [hsplit] at hd
      rcases List.mem_append.mp hd with hd | hd
      · exact le_of_lt (hpre d hd)
      · rcases List.mem_cons.mp hd with rfl | hd
        · exact le_refl _
        · exact hpost d hd

/-- Claim C4 counterexample: with the pairs path triggered (profile [1,1,0,0],
so singles + pairs = 2 > 1) and learned stats favoring "5C", the code discards
"5C", a card whose rank occurs exactly once in the hand — it is not a member of
a rank-group of exactly 2, which the claim requires. -/
theorem pairs_path_discards_non_pair_card :
    of_a_kind_count stPairsPath.hand = .ok [1, 1, 0, 0] ∧
      lay_down "" stPairsPath =
        .ok ("meld 2D meld 2H meld 7S discard 5C",
          { stPairsPath with hand := [], move_history := [("discard", "5C")] }) ∧
      (stPairsPath.hand.map rank).count (rank "5C") = 1 := by decide

/-- Claim C4 amended: when `of_a_kind_count[0] + of_a_kind_count[1] > 1`, the
discard chosen by lay-down is the first card of the whole hand attaining the
maximal learned win-ratio `wins / (wins + losses + 1e-5)` (missing entries
defaulting to 0 wins and 0 losses); there is no restriction to rank-groups of
exactly 2 and no protected card, and the last-card fallback is unreachable. -/
theorem lay_down_pairs_picks_first_ratio_max (st : RummyState) (counts : List Nat)
    (h1 : of_a_kind_count st.hand = .ok counts)
    (h2 : counts.getD 0 0 + counts.getD 1 0 > 1) :
    ∃ pre c post, st.hand = pre ++ c :: post ∧
      (∀ d ∈ pre, ratioOf (statsGet st.discard_stats d) < ratioOf (statsGet st.discard_stats c)) ∧
      (∀ d ∈ st.hand, ratioOf (statsGet st.discard_stats d) ≤ ratioOf (statsGet st.discard_stats c)) ∧
      ∃ play st2, lay_down_core st = .ok (play, st2) ∧
        st2.move_history = st.move_history ++ [("discard", c)] := by
  have hne : st.hand ≠ [] := by
    intro h
    rw [h] at h1
    simp [of_a_kind_count] at h1
  rcases candidatePairs_spec st.hand st.discard_stats hne with
    ⟨pre, c, post, hsplit, hcand, hpre, hall⟩
  refine ⟨pre, c, post, hsplit, hpre, hall, ?_⟩
  have hld : lay_down_core st = .ok
      (String.mk (stripChars
            (meldLoop (st.hand.erase (candidatePairs st.hand st.discard_stats)) "").1.data) ++
          " discard " ++ candidatePairs st.hand st.discard_stats,
        { st with
          hand := (meldLoop (st.hand.erase (candidatePairs st.hand st.discard_stats)) "").2,
          move_history :=
            st.move_history ++ [("discard", candidatePairs st.hand st.discard_stats)] }) := by
    simp only [lay_down_core, h1]
    rw [if_pos h2]
  rw [hcand] at hld
  exact ⟨_, _, hld, rfl⟩

/-! ## Claim theorems (C10) -/

lemma leadRun_le_count (v : Char) (l : List String) :
    leadRun v l ≤ (l.map rank).count v := by
  induction l with
  | nil => simp [leadRun]
  | cons c cs ih =>
    rw [leadRun]
    split
    · next h =>
      rw [List.map_cons, h, List.count_cons_self]
      omega
    · exact Nat.zero_le _

lemma count_map_rank_tail_le (c : String) (cs : List String) (v : Char) :
    ((cs.map rank).count v) ≤ (((c :: cs).map rank).count v) := by
  rw [List.map_cons, List.count_cons]
  exact Nat.le_add_right _ _

/-- The of-a-kind loop cannot overflow the four-slot profile as long as no
rank occurs more than four times: the running `count` stays below 4. -/
lemma kindLoop_ok :
    ∀ (cs : List String) (lastV : Char) (count : Nat) (acc : List Nat),
      acc.length = 4 →
      (∀ v, ((cs.map rank).count v) ≤ 4) →
      count + leadRun lastV cs + 1 ≤ 4 →
      ∃ c2 a2, kindLoop cs lastV count acc = .ok (c2, a2) ∧ c2 + 1 ≤ 4 ∧ a2.length = 4 := by
  intro cs
  induction cs with
  | nil =>
    intro lastV count acc hlen hcnt hrun
    refine ⟨count, acc, rfl, ?_, hlen⟩
    simp [leadRun] at hrun
    omega
  | cons c cs ih =>
    intro lastV count acc hlen hcnt hrun
    have hcnt' : ∀ v, ((cs.map rank).count v) ≤ 4 :=
      fun v => le_trans (count_map_rank_tail_le c cs v) (hcnt v)
    by_cases h : rank c = lastV
    · rw [kindLoop, if_pos h]
      refine ih (rank c) (count + 1) acc hlen hcnt' ?_
      rw [leadRun, if_pos h] at hrun
      rw [h]
      omega
    · rw [leadRun, if_neg h] at hrun
      have hc4 : count < acc.length := by omega
      rw [kindLoop, if_neg h, bump, if_pos hc4]
      refine ih (rank c) 0 (acc.set count (acc.getD count 0 + 1)) ?_ hcnt' ?_
      · rw [List.length_set]
        exact hlen
      · have hl1 := leadRun_le_count (rank c) cs
        have hl2 := hcnt (rank c)
        rw [List.map_cons, List.count_cons_self] at hl2
        omega

/-- On a hand where no rank occurs more than four times, the of-a-kind
analysis of lay-down succeeds. -/
lemma of_a_kind_ok (hand : List String) (hne : hand ≠ [])
    (hcnt : ∀ v, ((hand.map rank).count v) ≤ 4) :
    ∃ l, of_a_kind_count hand = .ok l := by
  rcases hand with _ | ⟨h0, rest⟩
  · exact absurd rfl hne
  · have hcnt' : ∀ v, ((rest.map rank).count v) ≤ 4 :=
      fun v => le_trans (count_map_rank_tail_le h0 rest v) (hcnt v)
    have hrun : 0 + leadRun (rank h0) rest + 1 ≤ 4 := by
      have hl1 := leadRun_le_count (rank h0) rest
      have hl2 := hcnt (rank h0)
      rw [List.map_cons, List.count_cons_self] at hl2
      omega
    rcases kindLoop_ok rest (rank h0) 0 [0, 0, 0, 0] rfl hcnt' hrun with
      ⟨c2, a2, hk, hc2, hlen⟩
    simp only [of_a_kind_count, hk]
    by_cases hz : c2 ≠ 0
    · rw [if_pos hz, bump, if_pos (show c2 < a2.length by omega)]
      exact ⟨_, rfl⟩
    · rw [if_neg hz]
      exact ⟨_, rfl⟩

lemma heurPick_mem (hand : List String) (hne : hand ≠ []) :
    ∀ i, i < hand.length → (heurPick hand i).1 ∈ hand := by
  intro i
  induction i with
  | zero =>
    intro hi
    rcases hand with _ | ⟨a, as⟩
    · exact absurd rfl hne
    · exact List.mem_cons_self a as
  | succ i ih =>
    intro hi
    rw [heurPick]
    split
    · have hg : hand.getD (i + 1) "" = hand.get ⟨i + 1, hi⟩ := by
        rw [List.getD_eq_getElem?_getD, List.getElem?_eq_getElem hi]
        rfl
      show hand.getD (i + 1) "" ∈ hand
      rw [hg]
      exact hand.get_mem _ hi
    · exact ih (Nat.lt_of_succ_lt hi)

lemma meldLoop_snd : ∀ (l : List String) (s : String), (meldLoop l s).2 = [] := by
  intro l
  induction l with
  | nil => intro s; rfl
  | cons c cs ih =>
    intro s
    rw [meldLoop]
    exact ih c

/-- Core of claim C10: both discard-selection paths remove one card of the
hand and the meld loop drains the rest, so the resulting hand is empty. -/
lemma lay_down_core_empties (st : RummyState) (hne : st.hand ≠ [])
    (hcnt : ∀ v, ((st.hand.map rank).count v) ≤ 4) :
    ∃ play st2, lay_down_core st = .ok (play, st2) ∧ st2.hand = [] ∧
      ∃ c ∈ st.hand, st2.move_history = st.move_history ++ [("discard", c)] := by
  rcases of_a_kind_ok st.hand hne hcnt with ⟨counts, hok⟩
  by_cases hbig : counts.getD 0 0 + counts.getD 1 0 > 1
  · have hld : lay_down_core st = .ok
        (String.mk (stripChars
              (meldLoop (st.hand.erase (candidatePairs st.hand st.discard_stats)) "").1.data) ++
            " discard " ++ candidatePairs st.hand st.discard_stats,
          { st with
            hand := (meldLoop (st.hand.erase (candidatePairs st.hand st.discard_stats)) "").2,
            move_history :=
              st.move_history ++ [("discard", candidatePairs st.hand st.discard_stats)] }) := by
      simp only [lay_down_core, hok]
      rw [if_pos hbig]
    refine ⟨_, _, hld, meldLoop_snd _ "", candidatePairs st.hand st.discard_stats, ?_, rfl⟩
    rcases candidatePairs_spec st.hand st.discard_stats hne with
      ⟨pre, c, post, hsplit, hcand, -, -⟩
    rw [hcand, hsplit]
    exact List.mem_append_right _ (List.mem_cons_self c post)
  · have hld : lay_down_core st = .ok
        (String.mk (stripChars (meldLoop (heurDiscard st.hand).2 "").1.data) ++
            " discard " ++ (heurDiscard st.hand).1,
          { st with
            hand := (meldLoop (heurDiscard st.hand).2 "").2,
            move_history := st.move_history ++ [("discard", (heurDiscard st.hand).1)] }) := by
      simp only [lay_down_core, hok]
      rw [if_neg hbig]
    refine ⟨_, _, hld, meldLoop_snd _ "", (heurDiscard st.hand).1, ?_, rfl⟩
    exact heurPick_mem st.hand hne _ (Nat.sub_lt (List.length_pos.mpr hne) Nat.one_pos)

/-- Claim C10: every lay-down on a non-empty hand (with the physical-deck
bound of at most four cards per rank) succeeds, removes exactly one card of
the hand as the recorded discard, and melds out the rest: the stored hand is
empty afterwards. -/
theorem lay_down_empties_hand (e : String) (st : RummyState)
    (hne : (processEvents e st).hand ≠ [])
    (hcnt : ∀ v, (((processEvents e st).hand.map rank).count v) ≤ 4) :
    ∃ play st2, lay_down e st = .ok (play, st2) ∧ st2.hand = [] ∧
      ∃ c ∈ (processEvents e st).hand,
        st2.move_history = (processEvents e st).move_history ++ [("discard", c)] :=
  lay_down_core_empties (processEvents e st) hne hcnt

/-- Witness for C10 at the spec's Scenario 2 hand. -/
theorem lay_down_empties_hand_witness :
    (processEvents "" stScenario2).hand ≠ [] ∧
      (∃ play st2, lay_down "" stScenario2 = .ok (play, st2) ∧ st2.hand = [] ∧
        ∃ c ∈ (processEvents "" stScenario2).hand,
          st2.move_history = (processEvents "" stScenario2).move_history ++ [("discard", c)]) :=
  ⟨by decide, lay_down_empties_hand "" stScenario2 (by decide)
    (fun v => le_trans (List.count_le_length v _) (by decide))⟩

/-- Witness for the amended C4 theorem at the concrete all-singles hand
["2D","5C","7S"] with empty learned stats. -/
theorem lay_down_pairs_picks_first_ratio_max_witness :
    of_a_kind_count stAllSingles.hand = .ok [2, 0, 0, 0] ∧
      ([2, 0, 0, 0] : List Nat).getD 0 0 + ([2, 0, 0, 0] : List Nat).getD 1 0 > 1 ∧
      (∃ pre c post, stAllSingles.hand = pre ++ c :: post ∧
        (∀ d ∈ pre, ratioOf (statsGet stAllSingles.discard_stats d) <
          ratioOf (statsGet stAllSingles.discard_stats c)) ∧
        (∀ d ∈ stAllSingles.hand, ratioOf (statsGet stAllSingles.discard_stats d) ≤
          ratioOf (statsGet stAllSingles.discard_stats c)) ∧
        ∃ play st2, lay_down_core stAllSingles = .ok (play, st2) ∧
          st2.move_history = stAllSingles.move_history ++ [("discard", c)]) :=
  ⟨by decide, by decide,
    lay_down_pairs_picks_first_ratio_max stAllSingles [2, 0, 0, 0] (by decide) (by decide)⟩
